import Mathlib

/-!
# Verification of the discretize gear optimizer core

Shallow embedding of `src/state/optimizer/optimizerCore.ts`.

Modelling conventions:
* JavaScript numbers are embedded as `ℚ`.  The claims under study are
  order-theoretic / algebraic facts about the arithmetic the code performs,
  not about floating-point rounding.
* Attribute maps (`attributes`, `baseAttributes`, `gearStats`, the
  `damageMultiplier` table) are total functions `String → ℚ`; an attribute
  the program never wrote holds `0`.  A JavaScript expression `x || d`
  (on numbers) is embedded as `jsOr x d = if x = 0 then d else x`, which
  agrees with the JavaScript semantics on all numeric values.
* Affix names are embedded as `ℕ` indices into the canonical affix order;
  the JavaScript string comparison `gear[i] > gear[j]` becomes `>` on `ℕ`.
* The external read-only tables (`conditionData`, `allAttributePointKeys`)
  are supplied at construction, exactly as the spec's interface contract
  describes; they are fields of the settings record here.
-/

namespace GearOptimizer

/-- `x || d` on JavaScript numbers: `x` when nonzero, else the default. -/
def jsOr (v d : ℚ) : ℚ := if v = 0 then d else v

/-- `clamp` from optimizerCore.ts. -/
def clamp (input min max : ℚ) : ℚ :=
  if input < min then min else if input > max then max else input

/-- JavaScript truncation toward zero (used by the `%` remainder). -/
def jsTrunc (x : ℚ) : ℤ := if 0 ≤ x then ⌊x⌋ else ⌈x⌉

/-- JavaScript `x % 1`: remainder with the sign of the dividend. -/
def jsMod1 (x : ℚ) : ℚ := x - jsTrunc x

/-- JavaScript `Math.round`: round half toward positive infinity. -/
def mathRound (x : ℚ) : ℤ := ⌊x + 1/2⌋

/-- `roundEven` from optimizerCore.ts: if `number % 1 === 0.5` round to the
even one of the two neighbouring integers, otherwise `Math.round`. -/
def roundEven (x : ℚ) : ℤ :=
  if jsMod1 x = 1/2 then
    if ⌊x⌋ % 2 = 0 then ⌊x⌋ else ⌊x⌋ + 1
  else mathRound x

/-- `roundEven` viewed as a map on JavaScript numbers. -/
def roundEvenQ (x : ℚ) : ℚ := (roundEven x : ℚ)

/-- For a nonnegative argument, the JavaScript remainder `x % 1` is the
usual fractional part. -/
lemma jsMod1_nonneg (x : ℚ) (hx : 0 ≤ x) : jsMod1 x = x - ⌊x⌋ := by
  simp [jsMod1, jsTrunc, hx]

/-- For a negative argument, `x % 1` is nonpositive, hence never `0.5`:. -/
lemma jsMod1_neg_ne_half (x : ℚ) (hx : x < 0) : jsMod1 x ≠ 1/2 := by
  have hceil : x ≤ (⌈x⌉ : ℚ) := Int.le_ceil x
  have : jsMod1 x = x - ⌈x⌉ := by simp [jsMod1, jsTrunc, not_le.mpr hx]
  rw [this]
  intro h
  linarith

/-- On negative inputs `roundEven` always takes the `Math.round` branch. -/
lemma roundEven_of_neg (x : ℚ) (hx : x < 0) : roundEven x = mathRound x := by
  rw [roundEven, if_neg (jsMod1_neg_ne_half x hx)]

/-- On nonnegative inputs whose fractional part is not `0.5`, `roundEven`
takes the `Math.round` branch. -/
lemma roundEven_of_not_half (x : ℚ) (hx : 0 ≤ x) (h : x - ⌊x⌋ ≠ 1/2) :
    roundEven x = mathRound x := by
  rw [roundEven, if_neg]
  rw [jsMod1_nonneg x hx]
  exact h

/-- On nonnegative inputs with fractional part exactly `0.5`, `roundEven`
returns the even one of the two neighbouring integers. -/
lemma roundEven_of_half (x : ℚ) (hx : 0 ≤ x) (h : x - ⌊x⌋ = 1/2) :
    roundEven x % 2 = 0 ∧ (roundEven x = ⌊x⌋ ∨ roundEven x = ⌊x⌋ + 1) := by
  rw [roundEven, if_pos (by rw [jsMod1_nonneg x hx]; exact h)]
  rcases Int.emod_two_eq_zero_or_one ⌊x⌋ with h0 | h1
  · rw [if_pos h0]
    exact ⟨h0, Or.inl rfl⟩
  · rw [if_neg (by omega)]
    exact ⟨by omega, Or.inr rfl⟩

/-- If the fractional part of `x + 1/2` is `1/2` then `x` is the integer
`⌊x + 1/2⌋`. -/
lemma int_of_add_half_frac_half (x : ℚ) (h : x + 1/2 - ⌊x + 1/2⌋ = 1/2) :
    x = (⌊x + 1/2⌋ : ℚ) := by linarith

/-- Parity of `roundEven (x + 1/2)` is independent of adding an even
integer, for nonnegative arguments. -/
lemma roundEven_parity_period (x : ℚ) (hx : 0 ≤ x) (k : ℕ) :
    roundEven (x + 1/2) % 2 = roundEven (x + 1/2 + 2 * k) % 2 := by
  have hx1 : (0 : ℚ) ≤ x + 1/2 := by linarith
  have hx2 : (0 : ℚ) ≤ x + 1/2 + 2 * k := by positivity
  by_cases hint : x - ⌊x⌋ = 0
  · -- `x` is an integer: both arguments hit the half-to-even branch.
    have h1 : x + 1/2 - ⌊x + 1/2⌋ = 1/2 := by
      have hfe : ⌊x + 1/2⌋ = ⌊x⌋ := by
        have : x = (⌊x⌋ : ℚ) := by linarith
        rw [this]
        rw [show ((⌊x⌋ : ℚ) + 1/2) = 1/2 + ⌊x⌋ by ring, Int.floor_add_int]
        norm_num
      rw [hfe]; linarith
    have h2 : x + 1/2 + 2 * k - ⌊x + 1/2 + 2 * k⌋ = 1/2 := by
      have hcast : x + 1/2 + 2 * (k : ℚ) = x + 1/2 + ((2 * k : ℤ) : ℚ) := by
        push_cast; ring
      rw [hcast, Int.floor_add_int]
      push_cast
      linarith
    have e1 := roundEven_of_half (x + 1/2) hx1 h1
    have e2 := roundEven_of_half (x + 1/2 + 2 * k) hx2 h2
    rw [e1.1, e2.1]
  · -- `x` is not an integer: both arguments hit the `Math.round` branch.
    have h1 : x + 1/2 - ⌊x + 1/2⌋ ≠ 1/2 := by
      intro h
      have := int_of_add_half_frac_half x h
      apply hint
      rw [this, Int.floor_intCast]
      ring
    have h2 : x + 1/2 + 2 * k - ⌊x + 1/2 + 2 * k⌋ ≠ 1/2 := by
      intro h
      have hrw : x + 1/2 + 2 * (k : ℚ) = (x + 2 * k) + 1/2 := by ring
      rw [hrw] at h
      have := int_of_add_half_frac_half (x + 2 * k) h
      apply hint
      have hxval : x = ((⌊(x + 2 * k) + 1/2⌋ - 2 * k : ℤ) : ℚ) := by
        push_cast
        linarith
      rw [hxval, Int.floor_intCast]
      ring
    rw [roundEven_of_not_half _ hx1 h1, roundEven_of_not_half _ hx2 h2]
    unfold mathRound
    have hrw : x + 1/2 + 2 * (k : ℚ) + 1/2 = (x + 1/2 + 1/2) + ((2 * k : ℤ) : ℚ) := by
      push_cast; ring
    rw [hrw, Int.floor_add_int]
    omega

/-- **C4, counterexample.**  The claim asserts half-to-even rounding for
negative halves as well; but `roundEven (-3/2)` is `-1` (JavaScript `%`
is negative there, so the code falls through to `Math.round`), which is
odd, and the parity consequence fails for `x = -2, k = 1`:
`roundEven(-2 + 0.5) = -1` is odd while `roundEven(-2 + 0.5 + 2) = 0` is
even. -/
theorem C4_counterexample :
    (-3/2 : ℚ) - ⌊(-3/2 : ℚ)⌋ = 1/2 ∧
    roundEven (-3/2 : ℚ) = -1 ∧ (-1 : ℤ) % 2 ≠ 0 ∧
    roundEven ((-3/2 : ℚ) + 2) = 0 ∧ (0 : ℤ) % 2 = 0 := by
  refine ⟨by norm_num, ?_, by decide, ?_, by decide⟩
  · rw [roundEven_of_neg (-3/2 : ℚ) (by norm_num)]
    unfold mathRound
    norm_num
  · have h12 : ((-3/2 : ℚ) + 2) = 1/2 := by norm_num
    rw [h12, roundEven]
    rw [if_pos (by rw [jsMod1_nonneg (1/2 : ℚ) (by norm_num)]; norm_num)]
    norm_num

/-- **C4, amended.**  For nonnegative `x` with fractional part exactly
`0.5`, `roundEven` returns the nearer even integer; for every other
nonnegative `x` and for every negative `x` (including negative halves) it
returns JavaScript `Math.round x = ⌊x + 1/2⌋`; and the parity of
`roundEven (x + 0.5 + 2k)` is independent of `k : ℕ` for `0 ≤ x`. -/
theorem C4_amended (x : ℚ) :
    (0 ≤ x → x - ⌊x⌋ = 1/2 →
      roundEven x % 2 = 0 ∧ (roundEven x = ⌊x⌋ ∨ roundEven x = ⌊x⌋ + 1)) ∧
    (0 ≤ x → x - ⌊x⌋ ≠ 1/2 → roundEven x = ⌊x + 1/2⌋) ∧
    (x < 0 → roundEven x = ⌊x + 1/2⌋) ∧
    (∀ k : ℕ, 0 ≤ x → roundEven (x + 1/2) % 2 = roundEven (x + 1/2 + 2 * k) % 2) :=
  ⟨fun hx h => roundEven_of_half x hx h,
   fun hx h => roundEven_of_not_half x hx h,
   fun hx => roundEven_of_neg x hx,
   fun k hx => roundEven_parity_period x hx k⟩

/-- Witness for `C4_amended` at `x = 3/2` (and `k = 1` for the parity
conjunct): `3/2` rounds to the even neighbour `2`. -/
theorem C4_witness :
    (roundEven (3/2 : ℚ) % 2 = 0 ∧
      (roundEven (3/2 : ℚ) = ⌊(3/2 : ℚ)⌋ ∨ roundEven (3/2 : ℚ) = ⌊(3/2 : ℚ)⌋ + 1)) ∧
    roundEven ((3/2 : ℚ) + 1/2) % 2 = roundEven ((3/2 : ℚ) + 1/2 + 2 * (1 : ℕ)) % 2 :=
  ⟨(C4_amended (3/2 : ℚ)).1 (by norm_num) (by norm_num),
   (C4_amended (3/2 : ℚ)).2.2.2 1 (by norm_num)⟩

/-!
## Data model

`Attrs` embeds the string-keyed attribute maps of the source.  The maps are
total; a key the program never wrote holds `0`.
-/

/-- Attribute map: `attributes`, `baseAttributes`, `gearStats` and the
`damageMultiplier` table of the source. -/
abbrev Attrs := String → ℚ

/-- `ConditionName` from `gw2-data`, together with the synthetic
`TormentMoving` / `ConfusionActive` rows of `conditionData`. -/
inductive CondKey where
  | Burning
  | Bleeding
  | Poisoned
  | Torment
  | Confusion
  | TormentMoving
  | ConfusionActive
deriving DecidableEq, Fintype

/-- The condition name as the string used to build attribute keys. -/
def condName : CondKey → String
  | CondKey.Burning => "Burning"
  | CondKey.Bleeding => "Bleeding"
  | CondKey.Poisoned => "Poisoned"
  | CondKey.Torment => "Torment"
  | CondKey.Confusion => "Confusion"
  | CondKey.TormentMoving => "TormentMoving"
  | CondKey.ConfusionActive => "ConfusionActive"

/-- One row of the external `conditionData` table. -/
structure CondData where
  factor : ℚ
  baseDamage : ℚ

/-- The `rankby` objective. -/
inductive Rankby where
  | Damage
  | Survivability
  | Healing
deriving DecidableEq

/-- The attribute key read for a given `rankby`. -/
def rankStr : Rankby → String
  | Rankby.Damage => "Damage"
  | Rankby.Survivability => "Survivability"
  | Rankby.Healing => "Healing"

/-- `settings.modifiers`: the ready-to-use modifier bundle. -/
structure Modifiers where
  convert : List (String × List (String × ℚ))
  buff : List (String × ℚ)
  convertAfterBuffs : List (String × List (String × ℚ))
  damageMultiplier : Attrs
  hasBountifulMaintenanceOil : Bool

/-- The slice of `OptimizerCoreSettings` used by the attribute pipeline and
the scoring functions.  The external read-only tables
(`allAttributePointKeys`, `conditionData`) are supplied here, per the
spec's interface contract. -/
structure Settings where
  modifiers : Modifiers
  rankby : Rankby
  minBoonDuration : Option ℚ
  minHealingPower : Option ℚ
  minToughness : Option ℚ
  maxToughness : Option ℚ
  minHealth : Option ℚ
  minCritChance : Option ℚ
  relevantConditions : List CondKey
  disableCondiResultCache : Bool
  movementUptime : ℚ
  attackRate : ℚ
  pointKeys : List String
  conditionData : CondKey → CondData

/-- A candidate character: `baseAttributes` plus the `attributes` map
filled in by `calcStats`, and the constraint flag `valid`. -/
structure Character where
  baseAttributes : Attrs
  attributes : Attrs
  valid : Bool

/-!
## Attribute pipeline (`calcStats`, `checkInvalid`)
-/

/-- `maybeRound` of the source: round iff the target attribute is a point
attribute. -/
def maybeRoundFn (pointKeys : List String) (round : ℚ → ℚ) (attrName : String) : ℚ → ℚ :=
  if attrName ∈ pointKeys then round else id

/-- One entry of the pre-buff conversion loop: for each `(source, percent)`
add `maybeRound(baseAttributes[source] * percent)` to the target. -/
def applyConversion (base : Attrs) (maybeRound : ℚ → ℚ)
    (a : Attrs) (entry : String × List (String × ℚ)) : Attrs :=
  entry.2.foldl
    (fun a sp => Function.update a entry.1 (a entry.1 + maybeRound (base sp.1 * sp.2)))
    a

/-- One entry of the post-buff conversion loop, with the special-cased
`"Critical Chance -X"` sources.  The `"Critical Chance -37"` arm performs
the source's two `+=` statements, the second reading the (nonexistent)
attribute literally named `"Critical Chance -37"`. -/
def applyConversionAfterBuffs (maybeRound : ℚ → ℚ)
    (a : Attrs) (entry : String × List (String × ℚ)) : Attrs :=
  entry.2.foldl
    (fun a sp =>
      let attrName := entry.1
      let source := sp.1
      let percent := sp.2
      if source = "Critical Chance" then
        Function.update a attrName
          (a attrName + maybeRound (clamp (a "Critical Chance") 0 1 * percent))
      else if source = "Critical Chance -7" then
        Function.update a attrName
          (a attrName + maybeRound (clamp (a "Critical Chance" - 7/100) 0 1 * percent))
      else if source = "Critical Chance -20" then
        Function.update a attrName
          (a attrName + maybeRound (clamp (a "Critical Chance" - 20/100) 0 1 * percent))
      else if source = "Critical Chance -27" then
        Function.update a attrName
          (a attrName + maybeRound (clamp (a "Critical Chance" - 27/100) 0 1 * percent))
      else if source = "Critical Chance -30" then
        Function.update a attrName
          (a attrName + maybeRound (clamp (a "Critical Chance" - 30/100) 0 1 * percent))
      else if source = "Critical Chance -37" then
        let a1 := Function.update a attrName
          (a attrName + maybeRound (clamp (a "Critical Chance" - 37/100) 0 1 * percent))
        Function.update a1 attrName (a1 attrName + maybeRound (a1 source * percent))
      else a)
    a

/-- `calcStats`: base attributes → conversions → buffs → derived
primaries → post-buff conversions. -/
def calcStats (s : Settings) (c : Character) (noRounding : Bool) : Character :=
  let round : ℚ → ℚ := if noRounding then id else roundEvenQ
  let a0 := c.baseAttributes
  let a1 := s.modifiers.convert.foldl
    (fun a entry => applyConversion c.baseAttributes (maybeRoundFn s.pointKeys round entry.1) a entry)
    a0
  let a2 := s.modifiers.buff.foldl
    (fun a entry => Function.update a entry.1 (jsOr (a entry.1) 0 + entry.2)) a1
  let a3 := Function.update a2 "Critical Chance"
    (a2 "Critical Chance" + (a2 "Precision" - 1000) / 21 / 100)
  let a4 := Function.update a3 "Critical Damage"
    (a3 "Critical Damage" + a3 "Ferocity" / 15 / 100)
  let a5 := Function.update a4 "Boon Duration"
    (a4 "Boon Duration" + a4 "Concentration" / 15 / 100)
  let a6 := Function.update a5 "Health"
    (round ((a5 "Health" + a5 "Vitality" * 10) * (1 + jsOr (a5 "Maximum Health") 0)))
  let a7 := s.modifiers.convertAfterBuffs.foldl
    (fun a entry => applyConversionAfterBuffs (maybeRoundFn s.pointKeys round entry.1) a entry)
    a6
  { c with attributes := a7 }

/-- `checkInvalid`: marks `valid = false` and reports `true` iff a
constraint bound is violated (strict comparisons). -/
def checkInvalid (s : Settings) (c : Character) : Character × Bool :=
  let a := c.attributes
  let invalid :=
    (match s.minBoonDuration with
     | some v => decide (a "Boon Duration" < v / 100)
     | none => false) ||
    (match s.minHealingPower with
     | some v => decide (a "Healing Power" < v)
     | none => false) ||
    (match s.minToughness with
     | some v => decide (a "Toughness" < v)
     | none => false) ||
    (match s.maxToughness with
     | some v => decide (a "Toughness" > v)
     | none => false) ||
    (match s.minHealth with
     | some v => decide (a "Health" < v)
     | none => false) ||
    (match s.minCritChance with
     | some v => decide (a "Critical Chance" < v / 100)
     | none => false)
  (if invalid then { c with valid := false } else c, invalid)

/-!
## Scoring (`calcPower`, `calcCondi`, `calcSurvivability`, `calcHealing`)
-/

/-- `calcPower`.  Note: the source stores `powerDamage` into
`attributes['Siphon DPS']` (not the computed `siphonDamage`); the
embedding reproduces that.  Returns the updated character and
`powerDamage + siphonDamage`. -/
def calcPower (dm : Attrs) (c : Character) : Character × ℚ :=
  let a := c.attributes
  let critDmg := a "Critical Damage" * dm "Critical Damage"
  let critChance := clamp (a "Critical Chance") 0 1
  let a1 := Function.update a "Effective Power"
    (a "Power" * (1 + critChance * (critDmg - 1)) * dm "Strike Damage")
  -- 2597: standard enemy armor value
  let powerDamage := jsOr (a1 "Power Coefficient") 0 / 2597 * a1 "Effective Power"
  let a2 := Function.update a1 "Power DPS" powerDamage
  let siphonDamage := jsOr (a2 "Siphon Base Coefficient") 0 * dm "Siphon Damage"
  let a3 := Function.update a2 "Siphon DPS" powerDamage
  ({ c with attributes := a3 }, powerDamage + siphonDamage)

/-- Attribute keys written / read per condition. -/
def dmgKey (c : CondKey) : String := condName c ++ " Damage"

/-- `"{c} Stacks"`. -/
def stacksKey (c : CondKey) : String := condName c ++ " Stacks"

/-- `"{c} DPS"`. -/
def dpsKey (c : CondKey) : String := condName c ++ " DPS"

/-- `"{c} Duration"`. -/
def durKey (c : CondKey) : String := condName c ++ " Duration"

/-- `"{c} Coefficient"`. -/
def coefKey (c : CondKey) : String := condName c ++ " Coefficient"

/-- `conditionDamageTick`. -/
def conditionDamageTick (cd : CondKey → CondData) (condition : CondKey) (cdmg mult : ℚ) : ℚ :=
  ((cd condition).factor * cdmg + (cd condition).baseDamage) * mult

/-- The per-tick damage written to `attributes['{c} Damage']` by the
`switch` in the `calcCondi` loop, reading `Condition Damage` from the
given map: the special `Torment` / `Confusion` mixes, else a plain tick. -/
def condiDamageVal (s : Settings) (dm : Attrs) (a : Attrs) (condition : CondKey) : ℚ :=
  let cdmg := a "Condition Damage"
  let mult := dm "Condition Damage" * dm (dmgKey condition)
  match condition with
  | CondKey.Torment =>
    conditionDamageTick s.conditionData CondKey.Torment cdmg mult * (1 - s.movementUptime) +
      conditionDamageTick s.conditionData CondKey.TormentMoving cdmg mult * s.movementUptime
  | CondKey.Confusion =>
    conditionDamageTick s.conditionData CondKey.Confusion cdmg mult +
      conditionDamageTick s.conditionData CondKey.ConfusionActive cdmg mult * s.attackRate
  | cond => conditionDamageTick s.conditionData cond cdmg mult

/-- One iteration of the `calcCondi` loop body for one condition: writes
`'{c} Damage'`, computes duration and stacks, writes `'{c} Stacks'` and
`'{c} DPS'`.  The DPS line reproduces the source's
`stacks * (attributes['{c} Damage'] || 1)`. -/
def calcCondiStep (s : Settings) (dm : Attrs) (a : Attrs) (condition : CondKey) : Attrs × ℚ :=
  let a1 := Function.update a (dmgKey condition) (condiDamageVal s dm a condition)
  let duration := 1 + clamp (jsOr (a1 (durKey condition)) 0 + a1 "Condition Duration") 0 1
  let stacksVal := jsOr (a1 (coefKey condition)) 0 * duration
  let a2 := Function.update a1 (stacksKey condition) stacksVal
  let dps := stacksVal * jsOr (a2 (dmgKey condition)) 1
  let a3 := Function.update a2 (dpsKey condition) dps
  (a3, dps)

/-- The `Condition Duration += Expertise / 1500` bump performed at the
top of `calcCondi`. -/
def condiBase (a : Attrs) : Attrs :=
  Function.update a "Condition Duration"
    (a "Condition Duration" + a "Expertise" / 15 / 100)

/-- `calcCondi` on the raw attribute map: the `Condition Duration` bump,
then the per-condition loop.  Returns the final map and the summed
condition damage score. -/
def calcCondiAttrs (s : Settings) (dm : Attrs) (a : Attrs) (conds : List CondKey) : Attrs × ℚ :=
  conds.foldl
    (fun p cond =>
      let q := calcCondiStep s dm p.1 cond
      (q.1, p.2 + q.2))
    (condiBase a, 0)

/-- `calcCondi` on a character. -/
def calcCondi (s : Settings) (dm : Attrs) (c : Character) (conds : List CondKey) :
    Character × ℚ :=
  let r := calcCondiAttrs s dm c.attributes conds
  ({ c with attributes := r.1 }, r.2)

/-- `calcSurvivability`. -/
def calcSurvivability (dm : Attrs) (c : Character) : Character :=
  let a := c.attributes
  let a1 := Function.update a "Armor" (a "Armor" + a "Toughness")
  let a2 := Function.update a1 "Effective Health"
    (a1 "Health" * a1 "Armor" * (1 / dm "Damage Taken"))
  let a3 := Function.update a2 "Survivability" (a2 "Effective Health" / 1967)
  { c with attributes := a3 }

/-- `calcHealing` (representative skill: 390 base, 0.3 coefficient). -/
def calcHealing (s : Settings) (c : Character) : Character :=
  let a := c.attributes
  let a1 := Function.update a "Effective Healing"
    ((a "Healing Power" * (3/10) + 390) * (1 + jsOr (a "Outgoing Healing") 0))
  let a2 :=
    if s.modifiers.hasBountifulMaintenanceOil then
      let bonus := jsOr (a1 "Healing Power") 0 * (6/10) / 10000 +
        jsOr (a1 "Concentration") 0 * (8/10) / 10000
      if bonus ≠ 0 then
        Function.update a1 "Effective Healing" (a1 "Effective Healing" * (1 + bonus))
      else a1
    else a1
  let a3 := Function.update a2 "Healing" (a2 "Effective Healing")
  { c with attributes := a3 }

/-- Writes `attributes['Damage'] = power + condi + (attributes['Flat DPS'] || 0)`. -/
def setDamageScore (c : Character) (power condi : ℚ) : Character :=
  let a := Function.update c.attributes "Damage"
    (power + condi + jsOr (c.attributes "Flat DPS") 0)
  { c with attributes := a }


/-!
## C1: per-condition DPS stored by `calcCondi`
-/

/-- Keys written by the `calcCondi` loop iteration for condition `c`. -/
def isWriteKey (key : String) (c : CondKey) : Prop :=
  key = dmgKey c ∨ key = stacksKey c ∨ key = dpsKey c

instance (key : String) (c : CondKey) : Decidable (isWriteKey key c) := by
  unfold isWriteKey
  infer_instance

lemma condDamage_not_write : ∀ c : CondKey, ¬ isWriteKey "Condition Damage" c := by decide

lemma condDuration_not_write : ∀ c : CondKey, ¬ isWriteKey "Condition Duration" c := by decide

lemma durKey_not_write : ∀ c c2 : CondKey, ¬ isWriteKey (durKey c2) c := by decide

lemma coefKey_not_write : ∀ c c2 : CondKey, ¬ isWriteKey (coefKey c2) c := by decide

lemma dpsKey_not_write_of_ne : ∀ c c2 : CondKey, c ≠ c2 → ¬ isWriteKey (dpsKey c) c2 := by decide

lemma durKey_ne_dmgKey : ∀ c : CondKey, durKey c ≠ dmgKey c := by decide

lemma condDuration_ne_dmgKey : ∀ c : CondKey, "Condition Duration" ≠ dmgKey c := by decide

lemma coefKey_ne_dmgKey : ∀ c : CondKey, coefKey c ≠ dmgKey c := by decide

lemma dmgKey_ne_stacksKey : ∀ c : CondKey, dmgKey c ≠ stacksKey c := by decide

/-- `duration` for condition `c`, read off a fixed attribute map. -/
def condiDurationVal (a : Attrs) (c : CondKey) : ℚ :=
  1 + clamp (jsOr (a (durKey c)) 0 + a "Condition Duration") 0 1

/-- `stacks` for condition `c`, read off a fixed attribute map. -/
def condiStacksVal (a : Attrs) (c : CondKey) : ℚ :=
  jsOr (a (coefKey c)) 0 * condiDurationVal a c

/-- The DPS value the loop iteration computes for condition `c`, read off
a fixed attribute map: `stacks * (damage || 1)`. -/
def condiDPSVal (s : Settings) (dm : Attrs) (a : Attrs) (c : CondKey) : ℚ :=
  condiStacksVal a c * jsOr (condiDamageVal s dm a c) 1

lemma condiDamageVal_congr (s : Settings) (dm : Attrs) (a a0 : Attrs) (c : CondKey)
    (h : a "Condition Damage" = a0 "Condition Damage") :
    condiDamageVal s dm a c = condiDamageVal s dm a0 c := by
  unfold condiDamageVal
  rw [h]

lemma calcCondiStep_eval (s : Settings) (dm : Attrs) (a0 a : Attrs) (cond : CondKey)
    (hagree : ∀ key : String, (∀ c : CondKey, ¬ isWriteKey key c) → a key = a0 key) :
    (calcCondiStep s dm a cond).2 = condiDPSVal s dm a0 cond ∧
    (calcCondiStep s dm a cond).1 (dpsKey cond) = condiDPSVal s dm a0 cond ∧
    ∀ key : String, ¬ isWriteKey key cond → (calcCondiStep s dm a cond).1 key = a key := by
  have hcd : a "Condition Damage" = a0 "Condition Damage" :=
    hagree _ condDamage_not_write
  have hcdur : a "Condition Duration" = a0 "Condition Duration" :=
    hagree _ condDuration_not_write
  have hdur : a (durKey cond) = a0 (durKey cond) :=
    hagree _ (fun c => durKey_not_write c cond)
  have hcoef : a (coefKey cond) = a0 (coefKey cond) :=
    hagree _ (fun c => coefKey_not_write c cond)
  have hdps : (calcCondiStep s dm a cond).2 = condiDPSVal s dm a0 cond := by
    simp only [calcCondiStep]
    rw [Function.update_noteq (dmgKey_ne_stacksKey cond), Function.update_same,
      Function.update_noteq (durKey_ne_dmgKey cond),
      Function.update_noteq (condDuration_ne_dmgKey cond),
      Function.update_noteq (coefKey_ne_dmgKey cond),
      hdur, hcdur, hcoef, condiDamageVal_congr s dm a a0 cond hcd]
    rfl
  refine ⟨hdps, ?_, ?_⟩
  · have hsame :
        (calcCondiStep s dm a cond).1 (dpsKey cond) = (calcCondiStep s dm a cond).2 := by
      simp only [calcCondiStep, Function.update_same]
    rw [hsame, hdps]
  · intro key hk
    have hk1 : key ≠ dmgKey cond := fun h => hk (Or.inl h)
    have hk2 : key ≠ stacksKey cond := fun h => hk (Or.inr (Or.inl h))
    have hk3 : key ≠ dpsKey cond := fun h => hk (Or.inr (Or.inr h))
    simp only [calcCondiStep]
    rw [Function.update_noteq hk3, Function.update_noteq hk2, Function.update_noteq hk1]


/-- The `calcCondi` loop as a fold, starting from an arbitrary map/score. -/
def condiFold (s : Settings) (dm : Attrs) (conds : List CondKey) (p : Attrs × ℚ) : Attrs × ℚ :=
  conds.foldl
    (fun p cond =>
      let q := calcCondiStep s dm p.1 cond
      (q.1, p.2 + q.2))
    p

lemma condiFold_eval (s : Settings) (dm : Attrs) (a0 : Attrs) :
    ∀ (conds : List CondKey) (a : Attrs) (acc : ℚ),
      (∀ key : String, (∀ c : CondKey, ¬ isWriteKey key c) → a key = a0 key) →
      (condiFold s dm conds (a, acc)).2 = acc + (conds.map (condiDPSVal s dm a0)).sum ∧
      (∀ c ∈ conds, (condiFold s dm conds (a, acc)).1 (dpsKey c) = condiDPSVal s dm a0 c) ∧
      (∀ key : String, (∀ c ∈ conds, ¬ isWriteKey key c) →
        (condiFold s dm conds (a, acc)).1 key = a key) := by
  intro conds
  induction conds with
  | nil =>
    intro a acc hagree
    exact ⟨by simp [condiFold], by simp, fun key _ => rfl⟩
  | cons c cs ih =>
    intro a acc hagree
    have hstep := calcCondiStep_eval s dm a0 a c hagree
    have hagree2 : ∀ key : String, (∀ c2 : CondKey, ¬ isWriteKey key c2) →
        (calcCondiStep s dm a c).1 key = a0 key := by
      intro key hkey
      rw [hstep.2.2 key (hkey c)]
      exact hagree key hkey
    have ih2 := ih (calcCondiStep s dm a c).1 (acc + (calcCondiStep s dm a c).2) hagree2
    have hfold : condiFold s dm (c :: cs) (a, acc)
        = condiFold s dm cs ((calcCondiStep s dm a c).1, acc + (calcCondiStep s dm a c).2) :=
      rfl
    refine ⟨?_, ?_, ?_⟩
    · rw [hfold, ih2.1, hstep.1]
      rw [List.map_cons, List.sum_cons]
      ring
    · intro c2 hc2
      rw [hfold]
      rcases List.mem_cons.mp hc2 with h | h
      · subst h
        by_cases hmem : c2 ∈ cs
        · exact ih2.2.1 c2 hmem
        · rw [ih2.2.2 (dpsKey c2)
            (fun c3 hc3 => dpsKey_not_write_of_ne c2 c3 (fun he => hmem (he ▸ hc3)))]
          exact hstep.2.1
      · exact ih2.2.1 c2 h
    · intro key hkey
      rw [hfold, ih2.2.2 key (fun c2 hc2 => hkey c2 (List.mem_cons_of_mem c hc2))]
      exact hstep.2.2 key (hkey c (List.mem_cons_self c cs))

/-- **C1, amended.**  For every attribute map and relevant-condition list,
`calcCondi` stores `attributes['{c} DPS'] = stacks * (damage_c || 1)` and
returns the sum of exactly those contributions; when `damage_c = 0` the
stored value is `stacks * 1`, not `0`. -/
theorem C1_amended (s : Settings) (dm : Attrs) (a : Attrs) (conds : List CondKey) :
    (calcCondiAttrs s dm a conds).2 = (conds.map (condiDPSVal s dm (condiBase a))).sum ∧
    (∀ c ∈ conds,
      (calcCondiAttrs s dm a conds).1 (dpsKey c) = condiDPSVal s dm (condiBase a) c) ∧
    ∀ c : CondKey,
      condiDPSVal s dm (condiBase a) c =
        condiStacksVal (condiBase a) c *
          (if condiDamageVal s dm (condiBase a) c = 0 then 1
            else condiDamageVal s dm (condiBase a) c) := by
  have h := condiFold_eval s dm (condiBase a) conds (condiBase a) 0 (fun key _ => rfl)
  have heq : calcCondiAttrs s dm a conds = condiFold s dm conds (condiBase a, 0) := rfl
  exact ⟨by rw [heq, h.1, zero_add], by rw [heq]; exact h.2.1, fun c => rfl⟩

/-- Settings used by the `C1` counterexample: one relevant condition
(`Burning`), all damage multipliers zero. -/
def C1settings : Settings where
  modifiers :=
    { convert := [], buff := [], convertAfterBuffs := [],
      damageMultiplier := fun _ => 0, hasBountifulMaintenanceOil := false }
  rankby := Rankby.Damage
  minBoonDuration := none
  minHealingPower := none
  minToughness := none
  maxToughness := none
  minHealth := none
  minCritChance := none
  relevantConditions := [CondKey.Burning]
  disableCondiResultCache := false
  movementUptime := 0
  attackRate := 0
  pointKeys := []
  conditionData := fun _ => ⟨0, 0⟩

/-- Attribute map used by the `C1` counterexample: two stacks of Burning,
everything else zero. -/
def C1attrs : Attrs := fun key => if key = "Burning Coefficient" then 2 else 0

/-- **C1, counterexample.**  With `Burning Coefficient = 2` and all
multipliers zero, the per-tick damage is `0`, so the claim says the
stored `Burning DPS` and the condi score are `stacks * 0 = 0`; but the
code computes `stacks * (damage || 1) = 2 * 1 = 2`. -/
theorem C1_counterexample :
    (calcCondiAttrs C1settings (fun _ => 0) C1attrs [CondKey.Burning]).1
        (dpsKey CondKey.Burning) = 2 ∧
    (calcCondiAttrs C1settings (fun _ => 0) C1attrs [CondKey.Burning]).2 = 2 ∧
    condiStacksVal (condiBase C1attrs) CondKey.Burning *
      condiDamageVal C1settings (fun _ => 0) (condiBase C1attrs) CondKey.Burning = 0 := by
  refine ⟨?_, ?_, ?_⟩ <;>
    simp [calcCondiAttrs, calcCondiStep, condiBase, condiDamageVal, conditionDamageTick,
      condiStacksVal, condiDurationVal, C1settings, C1attrs, dmgKey, stacksKey, dpsKey,
      durKey, coefKey, condName, jsOr, clamp, Function.update_apply]


/-- Witness for `C1_amended` at the concrete `C1` inputs, discharging the
membership hypothesis for `Burning`. -/
theorem C1_witness :
    (calcCondiAttrs C1settings (fun _ => 0) C1attrs [CondKey.Burning]).1
        (dpsKey CondKey.Burning)
      = condiDPSVal C1settings (fun _ => 0) (condiBase C1attrs) CondKey.Burning :=
  (C1_amended C1settings (fun _ => 0) C1attrs [CondKey.Burning]).2.1
    CondKey.Burning (by decide)

/-!
## C6: `calcPower` stores `powerDamage` into `Siphon DPS`
-/

/-- Attribute map for the `C6` failing input: `Power = 1000`,
`Power Coefficient = 2597`, `Critical Damage = 1`,
`Siphon Base Coefficient = 7`. -/
def C6attrs : Attrs := fun key =>
  if key = "Power" then 1000
  else if key = "Power Coefficient" then 2597
  else if key = "Critical Damage" then 1
  else if key = "Siphon Base Coefficient" then 7
  else 0

/-- The `C6` failing character. -/
def C6char : Character :=
  { baseAttributes := C6attrs, attributes := C6attrs, valid := true }

/-- **C6.**  `calcPower` returns
`Power DPS + Siphon Base Coefficient * dm["Siphon Damage"]` (here
`1000 + 7`), as the claim states; but it stores `powerDamage` (`1000`),
not the computed siphon value (`7`), into `attributes['Siphon DPS']` —
the copy-paste slip the spec flags.  This theorem evaluates the code at
the failing input. -/
theorem C6_calcPower_bug :
    (calcPower (fun _ => 1) C6char).2 = 1007 ∧
    (calcPower (fun _ => 1) C6char).1.attributes "Siphon DPS" = 1000 ∧
    (1000 : ℚ) ≠
      jsOr (C6attrs "Siphon Base Coefficient") 0 * (fun _ => (1 : ℚ)) "Siphon Damage" := by
  refine ⟨?_, ?_, ?_⟩
  · simp [calcPower, C6char, C6attrs, jsOr, clamp, Function.update_apply]
    norm_num
  · simp [calcPower, C6char, C6attrs, jsOr, clamp, Function.update_apply]
  · simp [calcPower, C6char, C6attrs, jsOr, clamp, Function.update_apply]


/-!
## C7: the `"Critical Chance -37"` post-buff conversion branch
-/

/-- Settings for the `C7` failing input: one post-buff conversion entry
converting `"Critical Chance -37"` into `Power` at 100%. -/
def C7settings : Settings where
  modifiers :=
    { convert := [], buff := [],
      convertAfterBuffs := [("Power", [("Critical Chance -37", 1)])],
      damageMultiplier := fun _ => 1, hasBountifulMaintenanceOil := false }
  rankby := Rankby.Damage
  minBoonDuration := none
  minHealingPower := none
  minToughness := none
  maxToughness := none
  minHealth := none
  minCritChance := none
  relevantConditions := []
  disableCondiResultCache := false
  movementUptime := 0
  attackRate := 0
  pointKeys := []
  conditionData := fun _ => ⟨0, 0⟩

/-- The `C7` failing character: `Critical Chance = 0.5`,
`Precision = 1000`, and an attribute literally named
`"Critical Chance -37"` holding `100` (in JavaScript this attribute is
`undefined`, making the second `+=` produce `NaN`). -/
def C7char : Character where
  baseAttributes := fun key =>
    if key = "Critical Chance" then 1/2
    else if key = "Precision" then 1000
    else if key = "Critical Chance -37" then 100
    else 0
  attributes := fun _ => 0
  valid := true

/-- **C7.**  The claim (and the spec's intent) is that the
`"Critical Chance -37"` branch adds exactly
`maybeRound(clamp(CC − 0.37, 0, 1) * percent)` — here `0.13`.  The code
additionally executes a second `+=` reading `attributes["Critical Chance
-37"]`, so `Power` ends at `0.13 + 100`, not `0.13`.  This theorem
evaluates the code at the failing input. -/
theorem C7_calcStats_bug :
    (calcStats C7settings C7char false).attributes "Power" = 13/100 + 100 ∧
    clamp ((calcStats C7settings C7char false).attributes "Critical Chance" - 37/100) 0 1 * 1
      = 13/100 ∧
    (13/100 + 100 : ℚ) ≠ 13/100 := by
  refine ⟨?_, ?_, by norm_num⟩
  · simp [calcStats, C7settings, C7char, applyConversionAfterBuffs, applyConversion,
      maybeRoundFn, jsOr, clamp, Function.update_apply]
    norm_num
  · simp [calcStats, C7settings, C7char, applyConversionAfterBuffs, applyConversion,
      maybeRoundFn, jsOr, clamp, Function.update_apply]
    norm_num


/-!
## Full and fast evaluation paths, and the condi result cache
-/

/-- `Attributes.CONDITION` from `gw2-data`: the damaging conditions used
by the full evaluation path. -/
def conditionList : List CondKey :=
  [CondKey.Bleeding, CondKey.Burning, CondKey.Confusion, CondKey.Poisoned, CondKey.Torment]

/-- `updateAttributes`: full evaluation (power, condi, survivability,
healing), used for accepted candidates. -/
def updateAttributes (s : Settings) (c0 : Character) (noRounding : Bool) : Character :=
  let dm := s.modifiers.damageMultiplier
  let c1 := calcStats s { c0 with valid := true } noRounding
  let pr := calcPower dm c1
  let cr := calcCondi s dm pr.1 conditionList
  let c2 := setDamageScore cr.1 pr.2 cr.2
  calcHealing s (calcSurvivability dm c2)

/-- `condiResultCache.get`: the most recent value stored for the key. -/
def cacheGet (m : List (ℚ × ℚ)) (k : ℚ) : Option ℚ :=
  (m.find? (fun p => decide (p.1 = k))).map (fun p => p.2)

/-- `condiResultCache.set`. -/
def cacheSet (m : List (ℚ × ℚ)) (k v : ℚ) : List (ℚ × ℚ) := (k, v) :: m

/-- Result of `updateAttributesFast`: the mutated character, the updated
condi result cache (a field of the core object in the source), and the
boolean return value. -/
structure FastResult where
  character : Character
  cache : List (ℚ × ℚ)
  ok : Bool

/-- `updateAttributesFast`: `calcStats` with rounding, the constraint
check (unless skipped), then the `rankby` switch.  In the `Damage` branch
the condi score is the cached value when the lookup yields a *nonzero*
value (JavaScript `cache.get(id) || calcCondi(...)`), else a fresh
`calcCondi`; the result is then written back to the cache. -/
def updateAttributesFast (s : Settings) (cache : List (ℚ × ℚ)) (c0 : Character)
    (skipValidation : Bool) : FastResult :=
  let dm := s.modifiers.damageMultiplier
  let c1 := calcStats s { c0 with valid := true } false
  if skipValidation = false ∧ (checkInvalid s c1).2 = true then
    ⟨(checkInvalid s c1).1, cache, false⟩
  else
    match s.rankby with
    | Rankby.Damage =>
      let pr := calcPower dm c1
      if s.disableCondiResultCache then
        let cr := calcCondi s dm pr.1 s.relevantConditions
        ⟨setDamageScore cr.1 pr.2 cr.2, cache, true⟩
      else if 0 < s.relevantConditions.length then
        let key := pr.1.attributes "Expertise" + pr.1.attributes "Condition Damage" * 10000
        match cacheGet cache key with
        | some v =>
          if v = 0 then
            let cr := calcCondi s dm pr.1 s.relevantConditions
            ⟨setDamageScore cr.1 pr.2 cr.2, cacheSet cache key cr.2, true⟩
          else ⟨setDamageScore pr.1 pr.2 v, cacheSet cache key v, true⟩
        | none =>
          let cr := calcCondi s dm pr.1 s.relevantConditions
          ⟨setDamageScore cr.1 pr.2 cr.2, cacheSet cache key cr.2, true⟩
      else ⟨setDamageScore pr.1 pr.2 0, cache, true⟩
    | Rankby.Survivability => ⟨calcSurvivability dm c1, cache, true⟩
    | Rankby.Healing => ⟨calcHealing s c1, cache, true⟩

/-- The condi cache key the fast path computes for a character:
`Expertise + Condition Damage * 10000` read off the fully derived
attribute map. -/
def cacheKey (s : Settings) (c0 : Character) : ℚ :=
  let dm := s.modifiers.damageMultiplier
  let c1 := calcStats s { c0 with valid := true } false
  let pr := calcPower dm c1
  pr.1.attributes "Expertise" + pr.1.attributes "Condition Damage" * 10000

/-- The condi damage score `calcCondi` computes directly for a character
at the point the fast path would consult the cache. -/
def directCondiScore (s : Settings) (c0 : Character) : ℚ :=
  let dm := s.modifiers.damageMultiplier
  let c1 := calcStats s { c0 with valid := true } false
  let pr := calcPower dm c1
  (calcCondi s dm pr.1 s.relevantConditions).2

/-- The `Damage` score of the uncached computation for a character. -/
def fastDamageDirect (s : Settings) (c0 : Character) : ℚ :=
  let dm := s.modifiers.damageMultiplier
  let c1 := calcStats s { c0 with valid := true } false
  let pr := calcPower dm c1
  let cr := calcCondi s dm pr.1 s.relevantConditions
  (setDamageScore cr.1 pr.2 cr.2).attributes "Damage"


lemma flatDPS_not_write : ∀ c : CondKey, ¬ isWriteKey "Flat DPS" c := by decide

/-- `calcCondi` never writes the `Flat DPS` attribute. -/
lemma calcCondiAttrs_flatDPS (s : Settings) (dm : Attrs) (a : Attrs) (conds : List CondKey) :
    (calcCondiAttrs s dm a conds).1 "Flat DPS" = a "Flat DPS" := by
  have h := condiFold_eval s dm (condiBase a) conds (condiBase a) 0 (fun _ _ => rfl)
  have heq : calcCondiAttrs s dm a conds = condiFold s dm conds (condiBase a, 0) := rfl
  rw [heq, h.2.2 "Flat DPS" (fun c _ => flatDPS_not_write c)]
  unfold condiBase
  rw [Function.update_noteq (by decide)]

/-- **C5, amended.** -/
theorem C5_amended (s : Settings) (cache : List (ℚ × ℚ)) (c0 : Character)
    (hrank : s.rankby = Rankby.Damage)
    (hdis : s.disableCondiResultCache = false)
    (hne : s.relevantConditions ≠ [])
    (_hexp : (calcPower s.modifiers.damageMultiplier
        (calcStats s { c0 with valid := true } false)).1.attributes "Expertise" < 10000)
    (hcoh : ∀ v, cacheGet cache (cacheKey s c0) = some v → v ≠ 0 →
      v = directCondiScore s c0) :
    (updateAttributesFast s cache c0 false).ok = true →
    (updateAttributesFast s cache c0 false).character.attributes "Damage"
      = fastDamageDirect s c0 := by
  intro hok
  by_cases hinv : (checkInvalid s (calcStats s { c0 with valid := true } false)).2 = true
  · exfalso
    unfold updateAttributesFast at hok
    rw [if_pos ⟨rfl, hinv⟩] at hok
    exact Bool.false_ne_true hok
  · have hcond : ¬ ((false : Bool) = false ∧
        (checkInvalid s (calcStats s { c0 with valid := true } false)).2 = true) :=
      fun h => hinv h.2
    unfold updateAttributesFast
    rw [if_neg hcond, hrank]
    simp only [hdis, Bool.false_eq_true, if_false]
    rw [if_pos (List.length_pos.mpr hne)]
    rcases hget : cacheGet cache (cacheKey s c0) with _ | v
    · unfold cacheKey at hget
      simp only [hget]
      rfl
    · unfold cacheKey at hget
      simp only [hget]
      by_cases hv : v = 0
      · rw [if_pos hv]
        rfl
      · rw [if_neg hv]
        have hvd := hcoh v (by unfold cacheKey; exact hget) hv
        unfold fastDamageDirect setDamageScore
        simp only [Function.update_same]
        rw [hvd]
        unfold directCondiScore
        have hflat := calcCondiAttrs_flatDPS s s.modifiers.damageMultiplier
          (calcPower s.modifiers.damageMultiplier
            (calcStats s { c0 with valid := true } false)).1.attributes
          s.relevantConditions
        unfold calcCondi
        simp only []
        rw [hflat]


/-- Settings for the `C5` counterexample: one relevant condition
(`Burning`, base tick damage 100), all multipliers 1, cache enabled. -/
def C5settings : Settings where
  modifiers :=
    { convert := [], buff := [], convertAfterBuffs := [],
      damageMultiplier := fun _ => 1, hasBountifulMaintenanceOil := false }
  rankby := Rankby.Damage
  minBoonDuration := none
  minHealingPower := none
  minToughness := none
  maxToughness := none
  minHealth := none
  minCritChance := none
  relevantConditions := [CondKey.Burning]
  disableCondiResultCache := false
  movementUptime := 0
  attackRate := 0
  pointKeys := []
  conditionData := fun _ => ⟨0, 100⟩

/-- First `C5` character: one stack of Burning, no duration bonus. -/
def C5charA : Character where
  baseAttributes := fun key => if key = "Burning Coefficient" then 1 else 0
  attributes := fun _ => 0
  valid := true

/-- Second `C5` character: identical `(Expertise, Condition Damage)` —
hence identical cache key — but `Burning Duration = 1`, which doubles the
true condi score. -/
def C5charB : Character where
  baseAttributes := fun key =>
    if key = "Burning Coefficient" then 1
    else if key = "Burning Duration" then 1
    else 0
  attributes := fun _ => 0
  valid := true

/-- **C5, counterexample.**  Both characters satisfy `Expertise < 10000`
and share the cache key `0`, yet after the first evaluation caches `100`,
the second character's fast path uses the cached `100` while a direct
`calcCondi` yields `200`: the cache key does not capture the
`Burning Duration` attribute. -/
theorem C5_counterexample :
    (updateAttributesFast C5settings
        (updateAttributesFast C5settings [] C5charA false).cache
        C5charB false).character.attributes "Damage" = 100 ∧
    fastDamageDirect C5settings C5charB = 200 ∧
    cacheKey C5settings C5charA = cacheKey C5settings C5charB ∧
    (100 : ℚ) ≠ 200 := by
  refine ⟨?_, ?_, ?_, by norm_num⟩ <;>
    · simp [updateAttributesFast, fastDamageDirect, cacheKey, calcStats,
        checkInvalid, calcPower, calcCondi, calcCondiAttrs, condiFold, calcCondiStep,
        condiBase, condiDamageVal, conditionDamageTick, setDamageScore, cacheGet, cacheSet,
        C5settings, C5charA, C5charB, jsOr, clamp, Function.update_apply,
        dmgKey, stacksKey, dpsKey, durKey, coefKey, condName, List.find?]
      try norm_num [Function.update_apply]

/-- Witness for `C5_amended` at `C5charA` against the empty cache. -/
theorem C5_witness :
    (updateAttributesFast C5settings [] C5charA false).character.attributes "Damage"
      = fastDamageDirect C5settings C5charA :=
  C5_amended C5settings [] C5charA rfl rfl (by decide)
    (by simp [calcStats, calcPower, C5settings, C5charA, jsOr, clamp, Function.update_apply])
    (fun v hv _ => absurd hv (by simp [cacheGet]))
    (by simp [updateAttributesFast, calcStats, checkInvalid, calcPower, calcCondi,
      calcCondiAttrs, condiFold, calcCondiStep, condiBase, condiDamageVal,
      conditionDamageTick, setDamageScore, cacheGet, cacheSet, C5settings, C5charA,
      jsOr, clamp, Function.update_apply, dmgKey, stacksKey, dpsKey, durKey, coefKey,
      condName, List.find?])


/-!
## Result list: `characterLT` and `insertCharacter`
-/

/-- `characterLT`: positive iff `b` ranks strictly better than `a`; on a
rank tie, the tiebreak attribute decides (`Survivability` for `Damage`,
`Damage` otherwise). -/
def characterLT (a b : Character) (rankby : Rankby) : ℚ :=
  if a.attributes (rankStr rankby) = b.attributes (rankStr rankby) then
    match rankby with
    | Rankby.Damage => b.attributes "Survivability" - a.attributes "Survivability"
    | Rankby.Survivability => b.attributes "Damage" - a.attributes "Damage"
    | Rankby.Healing => b.attributes "Damage" - a.attributes "Damage"
  else b.attributes (rankStr rankby) - a.attributes (rankStr rankby)

/-- `characterLT` is antisymmetric. -/
lemma characterLT_neg (a b : Character) (rankby : Rankby) :
    characterLT b a rankby = - characterLT a b rankby := by
  unfold characterLT
  by_cases h : a.attributes (rankStr rankby) = b.attributes (rankStr rankby)
  · rw [if_pos h, if_pos h.symm]
    cases rankby <;> ring
  · rw [if_neg h, if_neg (fun hh => h hh.symm)]
    ring

/-- Default character for out-of-range list reads (never produced by the
code: all reads are in range). -/
def dummyChar : Character :=
  { baseAttributes := fun _ => 0, attributes := fun _ => 0, valid := true }

/-- The `insertCharacter` scan: starting at `list.length`, decrement the
position while the element before it ranks strictly worse than the
candidate. -/
def findPosAux (l : List Character) (c : Character) (rankby : Rankby) : ℕ → ℕ
  | 0 => 0
  | p + 1 =>
    if characterLT (l.getD p dummyChar) c rankby > 0 then findPosAux l c rankby p
    else p + 1

lemma findPosAux_le (l : List Character) (c : Character) (rankby : Rankby) :
    ∀ n, findPosAux l c rankby n ≤ n := by
  intro n
  induction n with
  | zero => simp [findPosAux]
  | succ m ih =>
    unfold findPosAux
    split
    · omega
    · omega

lemma findPosAux_stop (l : List Character) (c : Character) (rankby : Rankby) :
    ∀ n, 0 < findPosAux l c rankby n →
      characterLT (l.getD (findPosAux l c rankby n - 1) dummyChar) c rankby ≤ 0 := by
  intro n
  induction n with
  | zero => simp [findPosAux]
  | succ m ih =>
    unfold findPosAux
    split
    · exact ih
    · next h =>
        intro _
        simpa using not_lt.mp h

lemma findPosAux_scanned (l : List Character) (c : Character) (rankby : Rankby) :
    ∀ n i, findPosAux l c rankby n ≤ i → i < n →
      characterLT (l.getD i dummyChar) c rankby > 0 := by
  intro n
  induction n with
  | zero => omega
  | succ m ih =>
    intro i h1 h2
    revert h1
    unfold findPosAux
    split
    · intro h1
      rcases Nat.lt_or_ge i m with him | him
      · exact ih i h1 him
      · have : i = m := by omega
        subst this
        next h => exact h
    · intro h1
      omega

/-- The state of the result container owned by the optimizer core. -/
structure InsertState where
  list : List Character
  worstScore : ℚ
  isChanged : Bool
  uniqueIDCounter : ℕ

/-- `insertCharacter`: reject invalid or below-`worstScore` candidates,
re-evaluate the accepted candidate (`updateFull` stands for the
`updateAttributes` + `calcResults` pair; the list invariants hold for any
such function), then insert at the scanned position, truncate to
`maxResults`, and refresh `worstScore` when the list is full.  The
display-only `id` string (`uniqueIDCounter++`) is modelled by the counter
increment alone. -/
def insertCharacter (maxResults : ℕ) (rankby : Rankby) (updateFull : Character → Character)
    (st : InsertState) (c0 : Character) : InsertState :=
  if c0.valid = false ∨
      (st.worstScore ≠ 0 ∧ st.worstScore > c0.attributes (rankStr rankby)) then
    st
  else
    let c := updateFull c0
    let st1 : InsertState := { st with uniqueIDCounter := st.uniqueIDCounter + 1 }
    if st1.list.length = 0 then
      { st1 with list := [c], isChanged := true }
    else
      let position := findPosAux st1.list c rankby st1.list.length
      if (position : ℤ) > (maxResults : ℤ) - 1 then st1
      else
        let l1 :=
          if (position : ℤ) ≤ (st1.list.length : ℤ) - 1 then
            let l2 := st1.list.take position ++ c :: st1.list.drop position
            if l2.length > maxResults then l2.take maxResults else l2
          else st1.list ++ [c]
        let st2 : InsertState := { st1 with list := l1 }
        let st3 : InsertState :=
          if st2.list.length = maxResults then
            { st2 with
              worstScore :=
                (st2.list.getD (st2.list.length - 1) dummyChar).attributes (rankStr rankby) }
          else st2
        { st3 with isChanged := true }

/-- Sorted descending by the rank comparator: no adjacent pair is
improved by swapping. -/
def sortedBy (rankby : Rankby) (l : List Character) : Prop :=
  List.Chain' (fun a b => characterLT a b rankby ≤ 0) l

/-- The rank score of the last element (`0` for the empty list). -/
def lastRankScore (rankby : Rankby) (l : List Character) : ℚ :=
  (l.getD (l.length - 1) dummyChar).attributes (rankStr rankby)

/-- The result-container invariant: bounded length, sortedness, and —
amended — `worstScore` is either `0` or the rank score of the last
element of a full list. -/
structure InsertInv (maxResults : ℕ) (rankby : Rankby) (st : InsertState) : Prop where
  len_le : st.list.length ≤ maxResults
  sorted : sortedBy rankby st.list
  worst_ok : st.worstScore = 0 ∨
    (st.list.length = maxResults ∧ st.worstScore = lastRankScore rankby st.list)


lemma chain'_insertAt {R : Character → Character → Prop} (l : List Character) (c : Character)
    (p : ℕ) (hp : p ≤ l.length) (hchain : List.Chain' R l)
    (hpred : 0 < p → R (l.getD (p - 1) dummyChar) c)
    (hsucc : p < l.length → R c (l.getD p dummyChar)) :
    List.Chain' R (l.take p ++ c :: l.drop p) := by
  rw [List.chain'_append]
  refine ⟨hchain.take p, ?_, ?_⟩
  · rw [List.chain'_cons']
    refine ⟨?_, hchain.suffix (List.drop_suffix p l)⟩
    intro y hy
    rw [List.head?_eq_getElem?, List.getElem?_drop, Option.mem_def] at hy
    have hplen : p < l.length := by
      by_contra hnot
      rw [List.getElem?_eq_none (by omega)] at hy
      cases hy
    have h2 := hsucc hplen
    rw [List.getD_eq_getElem?_getD, List.getElem?_eq_getElem hplen, Option.getD_some] at h2
    rw [List.getElem?_eq_getElem (by omega : p + 0 < l.length)] at hy
    injection hy with hy2
    subst hy2
    simpa using h2
  · intro x hx y hy
    rw [List.head?_cons, Option.mem_def] at hy
    injection hy with hy2
    subst hy2
    rw [Option.mem_def, List.getLast?_eq_getElem?, List.length_take,
      min_eq_left hp, List.getElem?_take] at hx
    by_cases hp0 : 0 < p
    · rw [if_pos (by omega : p - 1 < p)] at hx
      have hplt : p - 1 < l.length := by omega
      rw [List.getElem?_eq_getElem hplt] at hx
      injection hx with hx2
      subst hx2
      have h1 := hpred hp0
      rw [List.getD_eq_getElem?_getD, List.getElem?_eq_getElem hplt, Option.getD_some] at h1
      exact h1
    · rw [if_neg (by omega)] at hx
      cases hx


lemma sortedBy_insertAt (rankby : Rankby) (l : List Character) (c : Character)
    (hsort : sortedBy rankby l) :
    sortedBy rankby
      (l.take (findPosAux l c rankby l.length) ++
        c :: l.drop (findPosAux l c rankby l.length)) := by
  apply chain'_insertAt l c _ (findPosAux_le l c rankby l.length) hsort
  · intro hp0
    exact findPosAux_stop l c rankby l.length hp0
  · intro hpl
    have h := findPosAux_scanned l c rankby l.length _ le_rfl hpl
    rw [characterLT_neg]
    linarith

lemma length_insertAt (l : List Character) (c : Character) (p : ℕ) (hp : p ≤ l.length) :
    (l.take p ++ c :: l.drop p).length = l.length + 1 := by
  simp only [List.length_append, List.length_take, List.length_cons, List.length_drop]
  omega

/-- **C2, amended.**  `insertCharacter` preserves the container
invariant: (a) the list length stays at most `maxResults`; (b) the list
stays sorted descending by `characterLT`; (c) `worstScore` is the rank
score of the last element whenever the list is full — except that it can
still be `0` when the list was filled by the very first insertion into an
empty list (`maxResults = 1`), the case the original claim wrongly
included. -/
theorem C2_amended (maxResults : ℕ) (rankby : Rankby) (updateFull : Character → Character)
    (st : InsertState) (c0 : Character) (hmax : 1 ≤ maxResults)
    (hinv : InsertInv maxResults rankby st) :
    InsertInv maxResults rankby (insertCharacter maxResults rankby updateFull st c0) := by
  obtain ⟨hlen, hsort, hworst⟩ := hinv
  unfold insertCharacter
  split
  · exact ⟨hlen, hsort, hworst⟩
  · dsimp only
    split
    · next hempt =>
      have hempt' : st.list.length = 0 := hempt
      refine ⟨by simpa using hmax, by simp [sortedBy], Or.inl ?_⟩
      rcases hworst with h | ⟨hfull, _⟩
      · exact h
      · omega
    · next hnem =>
      have hnem' : ¬ st.list.length = 0 := hnem
      split
      · exact ⟨hlen, hsort, hworst⟩
      · next hposle =>
        rw [not_lt] at hposle
        set cc := updateFull c0 with hcc
        set q := findPosAux st.list cc rankby st.list.length with hq
        have hple : q ≤ st.list.length := findPosAux_le _ _ _ _
        have hpmax : q < maxResults := by omega
        have hsorted2 := sortedBy_insertAt rankby st.list cc hsort
        rw [← hq] at hsorted2
        have hlen2 := length_insertAt st.list cc q hple
        split
        · next hsplice =>
          split
          · next htrunc =>
            have htrunc' : (st.list.take q ++ cc :: st.list.drop q).length > maxResults :=
              htrunc
            have hlen1 : ((st.list.take q ++ cc :: st.list.drop q).take maxResults).length
                = maxResults := by
              rw [List.length_take]
              omega
            split
            · next hfull =>
              exact ⟨le_of_eq hfull, List.Chain'.take hsorted2 maxResults,
                Or.inr ⟨hfull, rfl⟩⟩
            · next hnfull =>
              exact absurd hlen1 hnfull
          · next hntrunc =>
            have hntrunc' : ¬ (st.list.take q ++ cc :: st.list.drop q).length > maxResults :=
              hntrunc
            split
            · next hfull =>
              exact ⟨le_of_eq hfull, hsorted2, Or.inr ⟨hfull, rfl⟩⟩
            · next hnfull =>
              refine ⟨?_, hsorted2, ?_⟩
              · show (st.list.take q ++ cc :: st.list.drop q).length ≤ maxResults
                omega
              rcases hworst with h | ⟨hfullpre, _⟩
              · exact Or.inl h
              · exfalso
                omega
        · next hpush =>
          have hpeq : q = st.list.length := by omega
          have hlapp : st.list ++ [cc]
              = st.list.take q ++ cc :: st.list.drop q := by
            rw [hpeq, List.take_length, List.drop_length]
          have happsort : sortedBy rankby (st.list ++ [cc]) := by
            rw [hlapp]
            exact hsorted2
          have happlen : (st.list ++ [cc]).length = st.list.length + 1 := by simp
          split
          · next hfull =>
            exact ⟨le_of_eq hfull, happsort, Or.inr ⟨hfull, rfl⟩⟩
          · next hnfull =>
            refine ⟨?_, happsort, ?_⟩
            · show (st.list ++ [cc]).length ≤ maxResults
              omega
            rcases hworst with h | ⟨hfullpre, _⟩
            · exact Or.inl h
            · exfalso
              omega


/-- Initial container state: empty list, `worstScore = 0`. -/
def C2start : InsertState :=
  { list := [], worstScore := 0, isChanged := true, uniqueIDCounter := 0 }

/-- A valid candidate with rank score 5. -/
def C2char : Character :=
  { baseAttributes := fun _ => 0,
    attributes := fun key => if key = "Damage" then 5 else 0,
    valid := true }

/-- **C2, counterexample.**  With `maxResults = 1`, the very first
insertion into the empty list takes the `length === 0` fast path, which
never updates `worstScore`: the list reaches the full length `1`, its
last element has rank score `5`, yet `worstScore` is still `0`. -/
theorem C2_counterexample :
    (insertCharacter 1 Rankby.Damage id C2start C2char).list.length = 1 ∧
    (insertCharacter 1 Rankby.Damage id C2start C2char).worstScore = 0 ∧
    lastRankScore Rankby.Damage (insertCharacter 1 Rankby.Damage id C2start C2char).list
      = 5 ∧
    (0 : ℚ) ≠ 5 := by
  refine ⟨?_, ?_, ?_, by norm_num⟩ <;>
    simp [insertCharacter, C2start, C2char, lastRankScore, rankStr]

/-- Witness for `C2_amended`: the invariant holds before and after the
first insertion at `maxResults = 1`. -/
theorem C2_witness :
    InsertInv 1 Rankby.Damage (insertCharacter 1 Rankby.Damage id C2start C2char) :=
  C2_amended 1 Rankby.Damage id C2start C2char (Nat.le_refl 1)
    ⟨by simp [C2start], by simp [C2start, sortedBy], Or.inl (by simp [C2start])⟩


/-!
## The search loop (`calculate`)
-/

/-- Gear: affix indices in the canonical order, one per filled slot. -/
abbrev Gear := List ℕ

/-- Accumulated gear stat bonuses for a prefix. -/
abbrev GearStats := String → ℚ

/-- The loop-relevant slice of `OptimizerCoreSettings`.  `slots` is
`settings.slots.length`. -/
structure LoopSettings where
  affixes : List ℕ
  slots : ℕ
  affixesArray : List (List ℕ)
  affixStatsArray : List (List (List (String × ℚ)))
  runsAfterThisSlot : List ℕ
  forcedRing : Bool
  forcedAcc : Bool
  forcedWep : Bool
  forcedArmor : Bool

/-- The symmetry-pruning test on a popped prefix, exactly as in the
source (`nextSlot = gear.length`, comparisons in the canonical affix
order). -/
def shouldSkip (s : LoopSettings) (gear : Gear) : Bool :=
  let nextSlot := gear.length
  (!s.forcedRing && nextSlot == 9 &&
    decide (gear.getD (nextSlot - 2) 0 > gear.getD (nextSlot - 1) 0)) ||
  (!s.forcedAcc && nextSlot == 11 &&
    decide (gear.getD (nextSlot - 2) 0 > gear.getD (nextSlot - 1) 0)) ||
  (!s.forcedWep && nextSlot == 14 &&
    decide (gear.getD (nextSlot - 2) 0 > gear.getD (nextSlot - 1) 0)) ||
  (!s.forcedArmor && nextSlot == 6 &&
    (decide (gear.getD 1 0 > gear.getD 3 0) || decide (gear.getD 3 0 > gear.getD 5 0)))

/-- Adds an affix's `(stat, bonus)` pairs to the accumulated gear stats. -/
def addGearStats (gs : GearStats) (bonuses : List (String × ℚ)) : GearStats :=
  bonuses.foldl (fun g sb => Function.update g sb.1 (jsOr (g sb.1) 0 + sb.2)) gs

/-- The child entries pushed when expanding a prefix at slot
`k = gear.length`: the source pushes clones for affix indices `1..` and
finally recycles the popped arrays for index `0`; since the stack pops
from the end, the children are listed here in *pop* order (index `0`
first, then the remaining indices in reverse push order). -/
def expandEntries (s : LoopSettings) (gear : Gear) (gs : GearStats) :
    List (Gear × GearStats) :=
  let k := gear.length
  let affs := s.affixesArray.getD k []
  let stats := s.affixStatsArray.getD k []
  (((List.range affs.length).drop 1 ++ [0]).map
    (fun i => (gear ++ [affs.getD i 0], addGearStats gs (stats.getD i [])))).reverse

/-- One more than the largest per-slot affix count: a strict upper bound
on the branching of one expansion step (used only for termination). -/
def maxBranch (s : LoopSettings) : ℕ := (s.affixesArray.map List.length).foldr Nat.max 0

/-- Termination measure of one stack entry: exponential in the number of
unfilled slots. -/
def entryMeasure (s : LoopSettings) (e : Gear × GearStats) : ℕ :=
  (maxBranch s + 2) ^ (s.slots - e.1.length)

/-- Termination measure of the two aligned stacks. -/
def stackMeasure (s : LoopSettings) (stack : List (Gear × GearStats)) : ℕ :=
  (stack.map (entryMeasure s)).sum

lemma le_foldr_max (l : List ℕ) : ∀ x ∈ l, x ≤ l.foldr Nat.max 0 := by
  induction l with
  | nil => simp
  | cons y ys ih =>
    intro x hx
    rcases List.mem_cons.mp hx with h | h
    · subst h
      exact Nat.le_max_left _ _
    · exact le_trans (ih x h) (Nat.le_max_right _ _)

lemma branch_le_maxBranch (s : LoopSettings) (k : ℕ) :
    (s.affixesArray.getD k []).length ≤ maxBranch s := by
  rcases Nat.lt_or_ge k s.affixesArray.length with h | h
  · have hmem : (s.affixesArray.getD k []).length ∈ s.affixesArray.map List.length := by
      rw [List.getD_eq_getElem _ _ h]
      exact List.mem_map_of_mem List.length (s.affixesArray.getElem_mem h)
    exact le_foldr_max _ _ hmem
  · rw [List.getD_eq_default _ _ h]
    exact Nat.zero_le _

lemma entryMeasure_pos (s : LoopSettings) (e : Gear × GearStats) :
    1 ≤ entryMeasure s e :=
  Nat.one_le_iff_ne_zero.mpr (pow_ne_zero _ (by omega))

lemma stackMeasure_cons (s : LoopSettings) (e : Gear × GearStats)
    (rest : List (Gear × GearStats)) :
    stackMeasure s (e :: rest) = entryMeasure s e + stackMeasure s rest := by
  simp [stackMeasure]

lemma stackMeasure_rest_lt (s : LoopSettings) (e : Gear × GearStats)
    (rest : List (Gear × GearStats)) :
    stackMeasure s rest < stackMeasure s (e :: rest) := by
  rw [stackMeasure_cons]
  have := entryMeasure_pos s e
  omega

lemma expandEntries_gearLength (s : LoopSettings) (gear : Gear) (gs : GearStats) :
    ∀ e ∈ expandEntries s gear gs, e.1.length = gear.length + 1 := by
  intro e he
  unfold expandEntries at he
  rw [List.mem_reverse] at he
  rcases List.mem_map.mp he with ⟨i, _, hei⟩
  rw [← hei]
  simp

lemma expandEntries_length (s : LoopSettings) (gear : Gear) (gs : GearStats) :
    (expandEntries s gear gs).length
      = ((s.affixesArray.getD gear.length []).length - 1) + 1 := by
  simp [expandEntries]

lemma stackMeasure_expand_lt (s : LoopSettings) (gear : Gear) (gs : GearStats)
    (rest : List (Gear × GearStats)) (hk : gear.length < s.slots) :
    stackMeasure s (expandEntries s gear gs ++ rest)
      < stackMeasure s ((gear, gs) :: rest) := by
  rw [stackMeasure_cons]
  have hsplit : stackMeasure s (expandEntries s gear gs ++ rest)
      = stackMeasure s (expandEntries s gear gs) + stackMeasure s rest := by
    simp [stackMeasure]
  rw [hsplit]
  have hbound : stackMeasure s (expandEntries s gear gs)
      < entryMeasure s (gear, gs) := by
    have h1 := branch_le_maxBranch s gear.length
    have hcount : (expandEntries s gear gs).length ≤ maxBranch s + 1 := by
      rw [expandEntries_length]
      omega
    have hallm : ∀ x ∈ (expandEntries s gear gs).map (entryMeasure s),
        x ≤ (maxBranch s + 2) ^ (s.slots - (gear.length + 1)) := by
      intro x hx
      rcases List.mem_map.mp hx with ⟨e, he, hxe⟩
      have hlen := expandEntries_gearLength s gear gs e he
      rw [← hxe]
      unfold entryMeasure
      rw [hlen]
    have hsum : stackMeasure s (expandEntries s gear gs)
        ≤ (expandEntries s gear gs).length •
            (maxBranch s + 2) ^ (s.slots - (gear.length + 1)) := by
      unfold stackMeasure
      have := List.sum_le_card_nsmul ((expandEntries s gear gs).map (entryMeasure s))
        ((maxBranch s + 2) ^ (s.slots - (gear.length + 1))) hallm
      simpa using this
    have hexp : s.slots - gear.length = (s.slots - (gear.length + 1)) + 1 := by omega
    have hposp : 0 < (maxBranch s + 2) ^ (s.slots - (gear.length + 1)) :=
      Nat.pos_pow_of_pos _ (by omega)
    unfold entryMeasure
    rw [hexp, pow_succ]
    calc stackMeasure s (expandEntries s gear gs)
        ≤ (expandEntries s gear gs).length •
            (maxBranch s + 2) ^ (s.slots - (gear.length + 1)) := hsum
      _ ≤ (maxBranch s + 1) * (maxBranch s + 2) ^ (s.slots - (gear.length + 1)) := by
          rw [smul_eq_mul]
          exact Nat.mul_le_mul_right _ hcount
      _ < (maxBranch s + 2) * (maxBranch s + 2) ^ (s.slots - (gear.length + 1)) :=
          mul_lt_mul_of_pos_right (by omega) hposp
      _ = (maxBranch s + 2) ^ (s.slots - (gear.length + 1)) * (maxBranch s + 2) :=
          Nat.mul_comm _ _
  omega

/-- The iterative DFS of `calculate`, abstracted over the engine state
`σ` acted on by `testCharacter` at each complete gear assignment.  The
cooperative time-based yield does not alter the loop state and is not
modelled.  Returns the final `calculationRuns` and state. -/
def calcLoop (s : LoopSettings) {σ : Type} (test : σ → Gear → GearStats → σ) :
    List (Gear × GearStats) → ℕ → σ → ℕ × σ
  | [], runs, st => (runs, st)
  | (gear, gs) :: rest, runs, st =>
    if shouldSkip s gear then
      calcLoop s test rest (runs + s.runsAfterThisSlot.getD gear.length 0) st
    else if h2 : s.slots ≤ gear.length then
      calcLoop s test rest (runs + 1) (test st gear gs)
    else
      calcLoop s test (expandEntries s gear gs ++ rest) runs st
termination_by stack _ _ => stackMeasure s stack
decreasing_by
  · exact stackMeasure_rest_lt s (gear, gs) rest
  · exact stackMeasure_rest_lt s (gear, gs) rest
  · exact stackMeasure_expand_lt s gear gs rest (by omega)


/-- A progress value as yielded/returned by `calculate`.  Fields the
source leaves off an object literal (the early return carries `percent`
but no `calculationRuns`) are `none`. -/
structure Progress where
  isChanged : Bool
  calculationRuns : Option ℕ
  percent : Option ℕ
  newList : Option (List Character)

/-- `calculate`: the early return for an empty affix list, else the DFS
loop over the two aligned stacks (seeded with one empty prefix and empty
stats) followed by the final progress value.  `testCharacter` is the
abstracted per-leaf evaluation acting on the engine state; the time-based
cooperative yield does not alter the loop state and is not modelled. -/
def calculate (s : LoopSettings) (st0 : InsertState)
    (test : InsertState → Gear → GearStats → InsertState) : Progress :=
  if s.affixes.length = 0 then
    { isChanged := true, calculationRuns := none, percent := some 100, newList := some [] }
  else
    let st1 : InsertState := { st0 with isChanged := true }
    let r := calcLoop s test [([], fun _ => 0)] 0 st1
    { isChanged := r.2.isChanged, calculationRuns := some r.1, percent := none,
      newList := if r.2.isChanged then some r.2.list else none }

/-- **C3.**  A popped gear prefix is skipped — `runsAfterThisSlot[k]`
added to the counter, nothing pushed, no leaf tested — exactly when one
of the four symmetry conditions holds, with the indices and comparisons
of the claim (canonical affix order). -/
theorem C3_symmetry_pruning (s : LoopSettings) {σ : Type}
    (test : σ → Gear → GearStats → σ) (gear : Gear) (gs : GearStats)
    (rest : List (Gear × GearStats)) (runs : ℕ) (st : σ) :
    (shouldSkip s gear = true ↔
      ((s.forcedArmor = false ∧ gear.length = 6 ∧
          (gear.getD 1 0 > gear.getD 3 0 ∨ gear.getD 3 0 > gear.getD 5 0)) ∨
        (s.forcedRing = false ∧ gear.length = 9 ∧ gear.getD 7 0 > gear.getD 8 0) ∨
        (s.forcedAcc = false ∧ gear.length = 11 ∧ gear.getD 9 0 > gear.getD 10 0) ∨
        (s.forcedWep = false ∧ gear.length = 14 ∧ gear.getD 12 0 > gear.getD 13 0))) ∧
    (shouldSkip s gear = true →
      calcLoop s test ((gear, gs) :: rest) runs st
        = calcLoop s test rest (runs + s.runsAfterThisSlot.getD gear.length 0) st) := by
  constructor
  · constructor
    · intro h
      simp only [shouldSkip, Bool.or_eq_true, Bool.and_eq_true, Bool.not_eq_true',
        beq_iff_eq, decide_eq_true_eq] at h
      rcases h with ((⟨⟨hf, hl⟩, hc⟩ | ⟨⟨hf, hl⟩, hc⟩) | ⟨⟨hf, hl⟩, hc⟩) | ⟨⟨hf, hl⟩, hc⟩
      · refine Or.inr (Or.inl ⟨hf, hl, ?_⟩)
        rw [hl] at hc
        simpa using hc
      · refine Or.inr (Or.inr (Or.inl ⟨hf, hl, ?_⟩))
        rw [hl] at hc
        simpa using hc
      · refine Or.inr (Or.inr (Or.inr ⟨hf, hl, ?_⟩))
        rw [hl] at hc
        simpa using hc
      · exact Or.inl ⟨hf, hl, hc⟩
    · intro h
      simp only [shouldSkip, Bool.or_eq_true, Bool.and_eq_true, Bool.not_eq_true',
        beq_iff_eq, decide_eq_true_eq]
      rcases h with ⟨hf, hl, hc⟩ | ⟨hf, hl, hc⟩ | ⟨hf, hl, hc⟩ | ⟨hf, hl, hc⟩
      · exact Or.inr ⟨⟨hf, hl⟩, hc⟩
      · refine Or.inl (Or.inl (Or.inl ⟨⟨hf, hl⟩, ?_⟩))
        rw [hl]
        simpa using hc
      · refine Or.inl (Or.inl (Or.inr ⟨⟨hf, hl⟩, ?_⟩))
        rw [hl]
        simpa using hc
      · refine Or.inl (Or.inr ⟨⟨hf, hl⟩, ?_⟩)
        rw [hl]
        simpa using hc
  · intro h
    conv_lhs => rw [calcLoop]
    rw [if_pos h]

/-- Witness for `C3_symmetry_pruning`: a prefix of length 9 with the two
rings out of canonical order is skipped, and the skip consumes the entry
while bumping the counter. -/
theorem C3_witness :
    shouldSkip
      { affixes := [0, 1], slots := 15, affixesArray := [], affixStatsArray := [],
        runsAfterThisSlot := [], forcedRing := false, forcedAcc := false,
        forcedWep := false, forcedArmor := false }
      [0, 0, 0, 0, 0, 0, 0, 1, 0] = true ∧
    calcLoop
      { affixes := [0, 1], slots := 15, affixesArray := [], affixStatsArray := [],
        runsAfterThisSlot := [], forcedRing := false, forcedAcc := false,
        forcedWep := false, forcedArmor := false }
      (fun (n : ℕ) _ _ => n + 1) [([0, 0, 0, 0, 0, 0, 0, 1, 0], fun _ => 0)] 0 0
      = calcLoop
        { affixes := [0, 1], slots := 15, affixesArray := [], affixStatsArray := [],
          runsAfterThisSlot := [], forcedRing := false, forcedAcc := false,
          forcedWep := false, forcedArmor := false }
        (fun (n : ℕ) _ _ => n + 1) [] (0 + List.getD [] 9 0) 0 :=
  ⟨by decide,
    (C3_symmetry_pruning
      { affixes := [0, 1], slots := 15, affixesArray := [], affixStatsArray := [],
        runsAfterThisSlot := [], forcedRing := false, forcedAcc := false,
        forcedWep := false, forcedArmor := false }
      (fun (n : ℕ) _ _ => n + 1) [0, 0, 0, 0, 0, 0, 0, 1, 0] (fun _ => 0) [] 0 0).2
      (by decide)⟩


/-- Loop settings with an empty affix list, for the `C8` theorems. -/
def C8settings : LoopSettings :=
  { affixes := [], slots := 0, affixesArray := [], affixStatsArray := [],
    runsAfterThisSlot := [], forcedRing := false, forcedAcc := false,
    forcedWep := false, forcedArmor := false }

/-- An arbitrary initial engine state for the `C8` theorems. -/
def C8start : InsertState :=
  { list := [], worstScore := 0, isChanged := true, uniqueIDCounter := 0 }

/-- **C8, counterexample.**  With `settings.affixes` empty, `calculate`
returns `{ isChanged: true, percent: 100, newList: [] }` — the
`calculationRuns` field is *absent* (`undefined`), and a `percent` field
is present instead, so the returned value is not
`{ isChanged: true, calculationRuns: 0, newList: [] }` as claimed. -/
theorem C8_counterexample :
    calculate C8settings C8start (fun st _ _ => st)
      = { isChanged := true, calculationRuns := none, percent := some 100,
          newList := some [] } ∧
    ({ isChanged := true, calculationRuns := none, percent := some 100,
        newList := some [] } : Progress)
      ≠ { isChanged := true, calculationRuns := some 0, percent := none,
          newList := some [] } := by
  constructor
  · simp [calculate, C8settings]
  · intro h
    have := congrArg Progress.calculationRuns h
    simp at this

/-- **C8, amended.**  When `settings.affixes` is empty, `calculate`
returns the single terminal progress value
`{ isChanged: true, percent: 100, newList: [] }` (with no
`calculationRuns` field), for *every* initial engine state and every
`testCharacter` — in particular it performs no candidate evaluations. -/
theorem C8_amended (s : LoopSettings) (st0 : InsertState)
    (test : InsertState → Gear → GearStats → InsertState)
    (h : s.affixes = []) :
    calculate s st0 test
      = { isChanged := true, calculationRuns := none, percent := some 100,
          newList := some [] } := by
  unfold calculate
  rw [if_pos (by simp [h])]

/-- Witness for `C8_amended` at the concrete empty-affix settings. -/
theorem C8_witness :
    calculate C8settings C8start (fun st _ _ => st)
      = { isChanged := true, calculationRuns := none, percent := some 100,
          newList := some [] } :=
  C8_amended C8settings C8start (fun st _ _ => st) rfl


/-- The number of complete gear assignments below a prefix that has
filled `k` slots: the product of the remaining slots' affix counts. -/
def slotWeight (s : LoopSettings) (k : ℕ) : ℕ :=
  ∏ j in Finset.Ico k s.slots, (s.affixesArray.getD j []).length

lemma sum_expand_slotWeight (s : LoopSettings) (gear : Gear) (gs : GearStats)
    (hk : gear.length < s.slots)
    (hnz : ∀ k, k < s.slots → 1 ≤ (s.affixesArray.getD k []).length) :
    ((expandEntries s gear gs).map (fun e => slotWeight s e.1.length)).sum
      = slotWeight s gear.length := by
  have hall : ∀ x ∈ (expandEntries s gear gs).map (fun e => slotWeight s e.1.length),
      x = slotWeight s (gear.length + 1) := by
    intro x hx
    rcases List.mem_map.mp hx with ⟨e, he, hxe⟩
    rw [← hxe, expandEntries_gearLength s gear gs e he]
  rw [List.sum_eq_card_nsmul _ _ hall]
  rw [List.length_map, expandEntries_length]
  have h1 := hnz gear.length hk
  have hcnt : (s.affixesArray.getD gear.length []).length - 1 + 1
      = (s.affixesArray.getD gear.length []).length := by omega
  rw [hcnt, smul_eq_mul]
  unfold slotWeight
  rw [Finset.prod_eq_prod_Ico_succ_bot hk]

lemma calcLoop_count_le (s : LoopSettings)
    (hnz : ∀ k, k < s.slots → 1 ≤ (s.affixesArray.getD k []).length) :
    ∀ (stack : List (Gear × GearStats)) (runs n : ℕ),
      (calcLoop s (fun m (_ : Gear) (_ : GearStats) => m + 1) stack runs n).2
        ≤ n + (stack.map (fun e => slotWeight s e.1.length)).sum := by
  intro stack runs n
  induction stack, runs, n using calcLoop.induct s (fun m _ _ => m + 1) with
  | case1 runs st =>
    conv_lhs => rw [calcLoop]
    simp
  | case2 gear gs rest runs st hskip ih =>
    conv_lhs => rw [calcLoop]
    rw [if_pos hskip]
    refine le_trans ih ?_
    simp only [List.map_cons, List.sum_cons]
    omega
  | case3 gear gs rest runs st hskip hle ih =>
    conv_lhs => rw [calcLoop]
    rw [if_neg hskip, dif_pos hle]
    refine le_trans ih ?_
    have hw : slotWeight s gear.length = 1 := by
      unfold slotWeight
      rw [Finset.Ico_eq_empty (by omega)]
      exact Finset.prod_empty
    simp only [List.map_cons, List.sum_cons, hw]
    omega
  | case4 gear gs rest runs st hskip hle ih =>
    conv_lhs => rw [calcLoop]
    rw [if_neg hskip, dif_neg hle]
    refine le_trans ih ?_
    rw [List.map_append, List.sum_append,
      sum_expand_slotWeight s gear gs (by omega) hnz]
    simp only [List.map_cons, List.sum_cons]
    omega

/-- **C9.**  The DFS is a total function (its definition carries a
well-founded termination proof: the aligned stacks empty after finitely
many iterations), and the number of leaf evaluations — counted here by
instantiating `testCharacter` with a counter — is bounded by the product
over all slots of the number of allowed affixes, provided every slot
offers at least one affix. -/
theorem C9_termination_leaf_bound (s : LoopSettings)
    (hnz : ∀ k, k < s.slots → 1 ≤ (s.affixesArray.getD k []).length) :
    (calcLoop s (fun m (_ : Gear) (_ : GearStats) => m + 1) [([], fun _ => 0)] 0 0).2
      ≤ ∏ k in Finset.range s.slots, (s.affixesArray.getD k []).length := by
  refine le_trans (calcLoop_count_le s hnz [([], fun _ => 0)] 0 0) ?_
  have hw : slotWeight s 0 = ∏ k in Finset.range s.slots, (s.affixesArray.getD k []).length := by
    rw [slotWeight, Finset.range_eq_Ico]
  simp only [List.map_cons, List.map_nil, List.sum_cons, List.sum_nil, List.length_nil,
    Nat.add_zero, Nat.zero_add]
  exact le_of_eq hw

/-- Witness for `C9_termination_leaf_bound`: two slots with two affixes
each give at most four leaf evaluations. -/
theorem C9_witness :
    (calcLoop
        { affixes := [0, 1], slots := 2, affixesArray := [[0, 1], [0, 1]],
          affixStatsArray := [], runsAfterThisSlot := [], forcedRing := false,
          forcedAcc := false, forcedWep := false, forcedArmor := false }
        (fun m (_ : Gear) (_ : GearStats) => m + 1) [([], fun _ => 0)] 0 0).2
      ≤ ∏ k in Finset.range 2,
          (List.getD [[0, 1], [0, 1]] k ([] : List ℕ)).length :=
  C9_termination_leaf_bound
    { affixes := [0, 1], slots := 2, affixesArray := [[0, 1], [0, 1]],
      affixStatsArray := [], runsAfterThisSlot := [], forcedRing := false,
      forcedAcc := false, forcedWep := false, forcedArmor := false }
    (by decide)


/-!
## `clone`: shared vs owned fields (explicit heap model)
-/

/-- A heap: string-keyed numeric maps (`baseAttributes`, `attributes`,
`gearStats`, `infusions` cells) and gear arrays, with an allocation
counter.  Object aliasing in the source is modelled by sharing cell
references. -/
structure Store where
  nextRef : ℕ
  attrHeap : ℕ → Attrs
  gearHeap : ℕ → Gear

/-- A character as the source holds it: every field a reference into the
heap (plus the inline `valid` flag). -/
structure CharacterRef where
  settings : ℕ
  attributes : ℕ
  gear : ℕ
  gearStats : ℕ
  valid : Bool
  baseAttributes : ℕ
  infusions : ℕ

/-- `clone`: `settings`, `attributes`, `gear`, `gearStats` are passed by
reference; `baseAttributes` and `infusions` are spread into freshly
allocated cells. -/
def clone (st : Store) (c : CharacterRef) : Store × CharacterRef :=
  let b := st.nextRef
  let i := st.nextRef + 1
  ({ nextRef := st.nextRef + 2,
     attrHeap :=
       Function.update (Function.update st.attrHeap b (st.attrHeap c.baseAttributes)) i
         (st.attrHeap c.infusions),
     gearHeap := st.gearHeap },
   { settings := c.settings, attributes := c.attributes, gear := c.gear,
     gearStats := c.gearStats, valid := c.valid, baseAttributes := b, infusions := i })

/-- `addBaseStats` in the heap model: mutates the map held in the
character's `baseAttributes` cell, as the infusion appliers and the ±5
sensitivity pass do. -/
def addBaseStatsRef (st : Store) (c : CharacterRef) (stat : String) (amount : ℚ) : Store :=
  let m := st.attrHeap c.baseAttributes
  { st with
    attrHeap :=
      Function.update st.attrHeap c.baseAttributes
        (Function.update m stat (jsOr (m stat) 0 + amount)) }

/-- **C10.**  `clone` shares `settings`, `attributes`, `gear` and
`gearStats` by reference and copies `baseAttributes` and `infusions` by
value into fresh cells; mutating the clone's `baseAttributes` (via
`addBaseStats`) or its `infusions` cell leaves every pre-existing cell —
in particular the original character's — unchanged. -/
theorem C10_clone (st : Store) (c : CharacterRef)
    (hb : c.baseAttributes < st.nextRef) (hi : c.infusions < st.nextRef) :
    ((clone st c).2.settings = c.settings ∧
      (clone st c).2.attributes = c.attributes ∧
      (clone st c).2.gear = c.gear ∧
      (clone st c).2.gearStats = c.gearStats) ∧
    ((clone st c).1.attrHeap (clone st c).2.baseAttributes
        = st.attrHeap c.baseAttributes ∧
      (clone st c).1.attrHeap (clone st c).2.infusions = st.attrHeap c.infusions ∧
      (clone st c).2.baseAttributes ≠ c.baseAttributes ∧
      (clone st c).2.infusions ≠ c.infusions) ∧
    (∀ (stat : String) (amount : ℚ) (r : ℕ), r < st.nextRef →
      (addBaseStatsRef (clone st c).1 (clone st c).2 stat amount).attrHeap r
          = st.attrHeap r ∧
      ∀ m : Attrs,
        Function.update (clone st c).1.attrHeap (clone st c).2.infusions m r
          = st.attrHeap r) := by
  refine ⟨⟨rfl, rfl, rfl, rfl⟩, ⟨?_, ?_, ?_, ?_⟩, ?_⟩
  · show Function.update (Function.update st.attrHeap st.nextRef
        (st.attrHeap c.baseAttributes)) (st.nextRef + 1) (st.attrHeap c.infusions)
        st.nextRef = st.attrHeap c.baseAttributes
    rw [Function.update_noteq (by omega), Function.update_same]
  · show Function.update (Function.update st.attrHeap st.nextRef
        (st.attrHeap c.baseAttributes)) (st.nextRef + 1) (st.attrHeap c.infusions)
        (st.nextRef + 1) = st.attrHeap c.infusions
    rw [Function.update_same]
  · show st.nextRef ≠ c.baseAttributes
    omega
  · show st.nextRef + 1 ≠ c.infusions
    omega
  · intro stat amount r hr
    constructor
    · show Function.update (Function.update (Function.update st.attrHeap st.nextRef
          (st.attrHeap c.baseAttributes)) (st.nextRef + 1) (st.attrHeap c.infusions))
          st.nextRef _ r = st.attrHeap r
      rw [Function.update_noteq (by omega), Function.update_noteq (by omega),
        Function.update_noteq (by omega)]
    · intro m
      show Function.update (Function.update (Function.update st.attrHeap st.nextRef
          (st.attrHeap c.baseAttributes)) (st.nextRef + 1) (st.attrHeap c.infusions))
          (st.nextRef + 1) m r = st.attrHeap r
      rw [Function.update_noteq (by omega), Function.update_noteq (by omega),
        Function.update_noteq (by omega)]

/-- Concrete store for the `C10` witness. -/
def C10store : Store :=
  { nextRef := 2, attrHeap := fun _ => fun _ => 0, gearHeap := fun _ => [] }

/-- Concrete character for the `C10` witness: `baseAttributes` in cell 0,
`infusions` in cell 1. -/
def C10charRef : CharacterRef :=
  { settings := 0, attributes := 0, gear := 0, gearStats := 0, valid := true,
    baseAttributes := 0, infusions := 1 }

/-- Witness for `C10_clone` at the concrete store. -/
theorem C10_witness :
    (clone C10store C10charRef).2.attributes = C10charRef.attributes ∧
    (clone C10store C10charRef).1.attrHeap (clone C10store C10charRef).2.baseAttributes
      = C10store.attrHeap C10charRef.baseAttributes ∧
    (addBaseStatsRef (clone C10store C10charRef).1 (clone C10store C10charRef).2
        "Power" 5).attrHeap C10charRef.baseAttributes
      = C10store.attrHeap C10charRef.baseAttributes :=
  ⟨(C10_clone C10store C10charRef (by decide) (by decide)).1.2.1,
    (C10_clone C10store C10charRef (by decide) (by decide)).2.1.1,
    ((C10_clone C10store C10charRef (by decide) (by decide)).2.2 "Power" 5
      C10charRef.baseAttributes (by decide)).1⟩

end GearOptimizer
